import Mathlib

/-!
Verification development for the tag-governance and markup-annotation core of
a statically generated site repository.  It models, as executable Lean
functions over `List Char` / `String`:

* `validateTag` and the per-document validation loop of
  `src/scripts/validate-tags.ts` (the copy shipped alongside the worker);
* `parseFrontmatter` shared by `validate-tags.ts` and
  `src/scripts/analyze-tags.ts`;
* the tag-usage aggregation of `analyzeTags` in `src/scripts/analyze-tags.ts`;
* the tree pass of `src/plugins/rehype-footnote-class.mjs`.

JavaScript regular expressions used by the source are translated into
dedicated recursive matchers that follow the engine semantics (anchoring,
greedy/lazy repetition with backtracking, multiline line starts) for the
relevant patterns.  JavaScript `Map` objects and JSON objects are modelled as
association lists in insertion order; `undefined`/missing values are modelled
with `Option`.
-/

namespace Sjg

/-- Whitespace class of JS `\s` and `String.prototype.trim`. -/
def isJsWs (c : Char) : Bool :=
  c == ' ' || c == '\t' || c == '\n' || c == '\r' || c == '\x0b' || c == '\x0c' ||
    c.toNat == 0xA0 || c.toNat == 0x1680 ||
    (decide (0x2000 ≤ c.toNat) && decide (c.toNat ≤ 0x200A)) ||
    c.toNat == 0x2028 || c.toNat == 0x2029 || c.toNat == 0x202F ||
    c.toNat == 0x205F || c.toNat == 0x3000 || c.toNat == 0xFEFF

/-- ASCII case folding; agrees with JS `toLowerCase` on the ASCII tags the
repository uses. -/
def jsToLower (cs : List Char) : List Char := cs.map Char.toLower

/-- Does `pat` occur at the head of `cs`? -/
def headMatches : List Char → List Char → Bool
  | [], _ => true
  | _ :: _, [] => false
  | p :: ps, c :: cs => p == c && headMatches ps cs

/-- Split `cs` at the first occurrence of `pat`: returns the part before the
occurrence and the part after it. -/
def splitOnSub (pat : List Char) : List Char → Option (List Char × List Char)
  | [] => if headMatches pat [] then some ([], []) else none
  | c :: rest =>
    if headMatches pat (c :: rest) then some ([], (c :: rest).drop pat.length)
    else
      match splitOnSub pat rest with
      | some (pre, post) => some (c :: pre, post)
      | none => none

/-- Substring test. -/
def hasSubstr (pat cs : List Char) : Bool := (splitOnSub pat cs).isSome

def replaceWsRunsAux : List Char → Bool → List Char
  | [], _ => []
  | c :: rest, prevWs =>
    if isJsWs c then
      if prevWs then replaceWsRunsAux rest true else '-' :: replaceWsRunsAux rest true
    else c :: replaceWsRunsAux rest false

/-- JS `replace(/\s+/g, "-")`: every maximal whitespace run becomes one hyphen. -/
def replaceWsRuns (cs : List Char) : List Char := replaceWsRunsAux cs false

/-- JS `replace(/_/g, "-")`. -/
def replaceUnderscores (cs : List Char) : List Char :=
  cs.map (fun c => if c == '_' then '-' else c)

def collapseHyphensAux : List Char → Bool → List Char
  | [], _ => []
  | c :: rest, prevH =>
    if c == '-' then
      if prevH then collapseHyphensAux rest true else '-' :: collapseHyphensAux rest true
    else c :: collapseHyphensAux rest false

/-- JS `replace` with pattern "hyphen run", replacement "-": every maximal
hyphen run becomes one hyphen. -/
def collapseHyphens (cs : List Char) : List Char := collapseHyphensAux cs false

/-- JS `includes("--")`. -/
def hasDoubleHyphen : List Char → Bool
  | '-' :: '-' :: _ => true
  | _ :: rest => hasDoubleHyphen rest
  | [] => false

/-- JS `replace` with pattern "leading hyphen run or trailing hyphen run",
replacement empty: strip the hyphen runs at both edges. -/
def stripEdgeHyphens (cs : List Char) : List Char :=
  ((cs.dropWhile (fun c => c == '-')).reverse.dropWhile (fun c => c == '-')).reverse

/-- JS `String.prototype.trim`. -/
def jsTrim (cs : List Char) : List Char :=
  ((cs.dropWhile isJsWs).reverse.dropWhile isJsWs).reverse

/-- Shape of `canonical-tags.json` (`CanonicalTags` in `validate-tags.ts`).
The JSON object `consolidationMap` is modelled as an association list in key
insertion order. -/
structure CanonicalTags where
  canonicalTags : List String
  consolidationMap : List (String × String)
deriving DecidableEq

/-- Return type of `validateTag`. -/
structure TagCheck where
  valid : Bool
  issue : Option String
  suggestion : Option String
deriving DecidableEq

/-- JS property read `consolidationMap[tag]` on the association list. -/
def consolidationLookup (m : List (String × String)) (tag : String) : Option String :=
  (m.find? (fun p => p.1 == tag)).map (fun p => p.2)

/-- The guard `canonicalTags && canonicalTags.consolidationMap[tag]` of
`validateTag`: the looked-up value must exist and be truthy, so a key mapped
to the empty string does not fire the consolidation branch. -/
def consolidationHit (cfg : Option CanonicalTags) (tag : String) : Option String :=
  match cfg with
  | none => none
  | some c =>
    match consolidationLookup c.consolidationMap tag with
    | some v => if v == "" then none else some v
    | none => none

/-- `validateTag` of `validate-tags.ts` (lines 64-133 of the concatenated
worker file).  The module-scope lazily loaded `canonicalTags` is passed as the
explicit `cfg` argument, per the design note of the specification. -/
def validateTag (cfg : Option CanonicalTags) (tag : String) : TagCheck :=
  match consolidationHit cfg tag with
  | some v => { valid := false, issue := some "Tag should be consolidated", suggestion := some v }
  | none =>
    if tag.data ≠ jsToLower tag.data then
      { valid := false, issue := some "Contains uppercase letters",
        suggestion := some (String.mk (jsToLower tag.data)) }
    else if tag.data.contains ' ' then
      { valid := false, issue := some "Contains spaces (should use hyphens)",
        suggestion := some (String.mk (replaceWsRuns tag.data)) }
    else if tag.data.contains '_' then
      { valid := false, issue := some "Contains underscores (should use hyphens)",
        suggestion := some (String.mk (replaceUnderscores tag.data)) }
    else if hasDoubleHyphen tag.data then
      { valid := false, issue := some "Contains multiple consecutive hyphens",
        suggestion := some (String.mk (collapseHyphens tag.data)) }
    else if tag.data.head? == some '-' || tag.data.getLast? == some '-' then
      { valid := false, issue := some "Contains leading or trailing hyphens",
        suggestion := some (String.mk (stripEdgeHyphens tag.data)) }
    else if tag.data.all isJsWs then
      { valid := false, issue := some "Empty tag", suggestion := none }
    else
      { valid := true, issue := none, suggestion := none }

/-- One entry of the `issues` array built by `validateTags`. -/
structure TagIssue where
  post : String
  tag : String
  issue : String
  suggestion : Option String
deriving DecidableEq

/-- The inner loop of `validateTags` for one document: validate each tag and
collect an issue for every invalid one, in tag order.  The non-null assertion
`validation.issue!` is modelled with `getD ""`. -/
def validateDocTags (cfg : Option CanonicalTags) (post : String) (tags : List String) :
    List TagIssue :=
  tags.filterMap (fun tag =>
    let v := validateTag cfg tag
    if v.valid then none
    else some { post := post, tag := tag, issue := v.issue.getD "", suggestion := v.suggestion })

/-- `loadCanonicalTags` of `validate-tags.ts`: `readFileSync` and `JSON.parse`
are external collaborators modelled as `Except`-valued arguments; the
`try/catch` of the loader turns any failure of either into `none`. -/
def loadCanonicalTags (readFile : Except String String)
    (parseJson : String → Except String CanonicalTags) : Option CanonicalTags :=
  match readFile.bind parseJson with
  | .ok cfg => some cfg
  | .error _ => none

/-- Scanner for the JS `matchAll` pattern "double quote, one or more
non-quote characters, double quote".  The first argument is `some acc`
(reversed characters read so far after an opening quote) or `none` (looking
for an opening quote); an immediately closed pair of quotes yields no match
and the engine restarts at the second quote, hence the `some []` restart. -/
def qtScan : Option (List Char) → List Char → List (List Char)
  | _, [] => []
  | none, c :: rest => if c == '"' then qtScan (some []) rest else qtScan none rest
  | some acc, c :: rest =>
    if c == '"' then
      if acc.isEmpty then qtScan (some []) rest
      else acc.reverse :: qtScan none rest
    else qtScan (some (c :: acc)) rest

/-- Consume a literal at the head of the input. -/
def dropLit : List Char → List Char → Option (List Char)
  | [], cs => some cs
  | _ :: _, [] => none
  | p :: ps, c :: cs => if p == c then dropLit ps cs else none

/-- The lazy group of the tags pattern: the characters before the first
closing bracket, failing if a newline or the end of input comes first (the
dot of the lazy group cannot cross a newline). -/
def takeUntilRB : List Char → Option (List Char)
  | [] => none
  | c :: rest =>
    if c == ']' then some []
    else if c == '\n' then none
    else (takeUntilRB rest).map (fun g => c :: g)

/-- One attempt of the tags pattern at a line start: the literal "tags:", a
greedy whitespace run (which may cross newlines), an opening bracket, then
the lazy group up to the first closing bracket. -/
def matchTagsAt (cs : List Char) : Option (List Char) :=
  match dropLit "tags:".data cs with
  | none => none
  | some cs1 =>
    match dropLit "[".data (cs1.dropWhile isJsWs) with
    | none => none
    | some cs2 => takeUntilRB cs2

/-- Multiline scan for the first line start where the tags pattern matches
(the m flag: line starts are the string start and every position after a
newline). -/
def tagsScan : Bool → List Char → Option (List Char)
  | _, [] => none
  | atStart, c :: rest =>
    match (if atStart then matchTagsAt (c :: rest) else none) with
    | some g => some g
    | none => tagsScan (c == '\n') rest

/-- The apostrophe character, written by code point. -/
def squote : Char := Char.ofNat 39

def isQuoteChar (c : Char) : Bool := c == '"' || c == squote

/-- One backtracking attempt of the slug pattern after the whitespace star
has settled: an optional quote, then one or more characters that are neither
quotes nor newlines (greedy). -/
def trySlugFrom (cs : List Char) : Option (List Char) :=
  let cs1 := match cs with
    | c :: rest => if isQuoteChar c then rest else cs
    | [] => []
  let g := cs1.takeWhile (fun c => !(isQuoteChar c || c == '\n'))
  if g.isEmpty then none else some g

/-- Backtracking of the greedy whitespace star of the slug pattern: try with
the whole whitespace run consumed, then give characters back one at a time. -/
def slugTryAll : List Char → List Char → Option (List Char)
  | [], cs2 => trySlugFrom cs2
  | c :: runRev, cs2 =>
    match trySlugFrom cs2 with
    | some g => some g
    | none => slugTryAll runRev (c :: cs2)

/-- One attempt of the slug pattern at a line start. -/
def matchSlugAt (cs : List Char) : Option (List Char) :=
  match dropLit "slug:".data cs with
  | none => none
  | some cs1 => slugTryAll (cs1.takeWhile isJsWs).reverse (cs1.dropWhile isJsWs)

/-- Multiline scan for the first line start where the slug pattern matches. -/
def slugScan : Bool → List Char → Option (List Char)
  | _, [] => none
  | atStart, c :: rest =>
    match (if atStart then matchSlugAt (c :: rest) else none) with
    | some g => some g
    | none => slugScan (c == '\n') rest

/-- Suffixes of the input starting right after each newline inside its
leading whitespace run: the candidate cut points of the greedy whitespace
star that precedes the mandatory newline of the frontmatter opener. -/
def nlCuts : List Char → List (List Char)
  | [] => []
  | c :: rest =>
    if isJsWs c then
      if c == '\n' then rest :: nlCuts rest else nlCuts rest
    else []

/-- The frontmatter matcher: three hyphens at the string start, a greedy
whitespace run whose last consumed character is a newline (longest run tried
first), then the lazy body group up to the first occurrence of a newline
followed by three hyphens.  Returns the captured body group. -/
def fmMatch : List Char → Option (List Char)
  | '-' :: '-' :: '-' :: rest0 =>
    (nlCuts rest0).reverse.findSome? (fun t =>
      (splitOnSub ('\n' :: '-' :: '-' :: '-' :: []) t).map (fun p => p.1))
  | _ => none

/-- Return type of `parseFrontmatter`: the TS result type has an optional
`tags` field, modelled with `Option`. -/
structure Frontmatter where
  tags : Option (List String)
  slug : String
deriving DecidableEq

/-- `parseFrontmatter` of `analyze-tags.ts`.  The copy in `validate-tags.ts`
is identical except for an extra slug fallback (the first heading after the
frontmatter), which affects neither the tags nor the missing-frontmatter
return value. -/
def parseFrontmatter (content : String) : Frontmatter :=
  match fmMatch content.data with
  | none => { tags := none, slug := "unknown" }
  | some fm =>
    let tags : List String :=
      match tagsScan true fm with
      | some g => (qtScan none g).map String.mk
      | none => []
    let slug : String :=
      match slugScan true fm with
      | some g => String.mk (jsTrim g)
      | none => "unknown"
    { tags := some tags, slug := slug }

/-- One entry of the usage report, `TagUsage` in `analyze-tags.ts`. -/
structure TagUsage where
  tag : String
  count : Nat
  posts : List String
deriving DecidableEq

/-- One step of the collection loop, with JS `Map` semantics: a new key is
appended at the end of the insertion order, an existing entry receives a
pushed slug. -/
def addPost : List (String × List String) → String → String → List (String × List String)
  | [], tag, slug => [(tag, [slug])]
  | (t, ps) :: rest, tag, slug =>
    if t == tag then (t, ps ++ [slug]) :: rest else (t, ps) :: addPost rest tag slug

/-- JS `endsWith`. -/
def isSuffix (pat cs : List Char) : Bool := headMatches pat.reverse cs.reverse

/-- JS `replace` with a plain string pattern: remove the first occurrence. -/
def removeFirst (pat cs : List Char) : List Char :=
  match splitOnSub pat cs with
  | some (pre, post) => pre ++ post
  | none => cs

/-- The collection loop of `analyzeTags`: for each file ending in ".mdx",
parse the frontmatter, derive the post slug (the file name with its first
".mdx" removed when the frontmatter yields no slug), and record every tag
occurrence in insertion order. -/
def collectTags (files : List (String × String)) : List (String × List String) :=
  files.foldl (fun m fc =>
    if isSuffix ".mdx".data fc.1.data then
      let fmr := parseFrontmatter fc.2
      let postSlug : String :=
        if fmr.slug == "unknown" then String.mk (removeFirst ".mdx".data fc.1.data)
        else fmr.slug
      match fmr.tags with
      | some tags =>
        if tags.length > 0 then tags.foldl (fun acc tag => addPost acc tag postSlug) m
        else m
      | none => m
    else m) []

/-- Stable insertion for the descending sort: place `u` after every entry
with a count at least as large, before the first strictly smaller one. -/
def insertByCount (u : TagUsage) : List TagUsage → List TagUsage
  | [] => [u]
  | v :: rest => if v.count < u.count then u :: v :: rest else v :: insertByCount u rest

/-- The stable descending-by-count sort applied to the usage entries,
modelling the stable JS array sort with comparator on counts. -/
def sortByCountDesc (l : List TagUsage) : List TagUsage :=
  l.foldl (fun acc u => insertByCount u acc) []

/-- The aggregate report assembled by `analyzeTags`. -/
structure AnalysisReport where
  tagUsage : List TagUsage
  totalPosts : Nat
  totalTags : Nat
  uniqueTags : Nat
  singleUseTags : Nat
  multiUseTags : Nat
deriving DecidableEq

/-- The aggregation of `analyzeTags` in `analyze-tags.ts`: usage entries in
insertion order, sorted by descending count (stable), plus the statistics the
script prints. -/
def analyzeTags (files : List (String × String)) : AnalysisReport :=
  let tagUsage := sortByCountDesc ((collectTags files).map (fun e => ⟨e.1, e.2.length, e.2⟩))
  { tagUsage := tagUsage
    totalPosts := (files.filter (fun fc => isSuffix ".mdx".data fc.1.data)).length
    totalTags := tagUsage.foldl (fun s t => s + t.count) 0
    uniqueTags := tagUsage.length
    singleUseTags := (tagUsage.filter (fun t => t.count == 1)).length
    multiUseTags := (tagUsage.filter (fun t => decide (1 < t.count))).length }

/-- The tag reuse rate of the script: multi-use count divided by unique-tag
count, as an exact rational (the script prints it as a percentage). -/
def reuseRate (r : AnalysisReport) : ℚ := (r.multiUseTags : ℚ) / (r.uniqueTags : ℚ)

/-- The two legacy shapes of a hast class attribute value. -/
inductive ClassVal where
  | one : String → ClassVal
  | many : List String → ClassVal
deriving DecidableEq

/-- Element properties: the class attribute, plus all remaining attributes as
an opaque association list the pass never touches. -/
structure Props where
  className : Option ClassVal
  other : List (String × String)
deriving DecidableEq

/-- A hast node: an element with tag name, optional properties and children,
or a non-element node (text, comment) carried opaquely. -/
inductive HNode where
  | element : String → Option Props → List HNode → HNode
  | text : String → HNode

/-- The class normalization of the plugin, used for both the section check
and the li update: an absent value yields the empty list, a single string a
one-element list, an array is used as is. -/
def normalizeClasses : Option ClassVal → List String
  | none => []
  | some (.one s) => [s]
  | some (.many l) => l

/-- Normalized class list of an optional properties object. -/
def classListOfProps : Option Props → List String
  | none => []
  | some pr => normalizeClasses pr.className

/-- The attributes other than the class attribute. -/
def otherOfProps : Option Props → List (String × String)
  | none => []
  | some pr => pr.other

/-- Does a property set carry a class equal to "footnotes" or containing it
as a substring? -/
def hasFootnotesClass (p : Option Props) : Bool :=
  (classListOfProps p).any (fun c => c == "footnotes" || hasSubstr "footnotes".data c.data)

/-- The li update of the plugin: create the properties object when absent,
normalize the class list, and append "footnote-item" only when it is not
already present — when present, the properties (including a possibly
string-valued class attribute) are left untouched. -/
def annotateProps (p : Option Props) : Option Props :=
  let pr := p.getD { className := none, other := [] }
  let liClasses := normalizeClasses pr.className
  if liClasses.contains "footnote-item" then some pr
  else some { pr with className := some (.many (liClasses ++ ["footnote-item"])) }

mutual

/-- The traversal of `rehypeFootnoteClass` as a pure transform: `foot` holds
when some ancestor is a section element with a footnotes class, `ol` when
some ancestor is an ol element; an li element is updated exactly when both
hold, which matches the ancestor scan of the plugin. -/
def annotateNode (foot ol : Bool) : HNode → HNode
  | .text s => .text s
  | .element tag props children =>
    .element tag (if tag == "li" && foot && ol then annotateProps props else props)
      (annotateList (foot || (tag == "section" && hasFootnotesClass props))
        (ol || tag == "ol") children)

def annotateList (foot ol : Bool) : List HNode → List HNode
  | [] => []
  | n :: ns => annotateNode foot ol n :: annotateList foot ol ns

end

/-- The hast root: a node of type root, not an element, so it contributes to
neither ancestor condition. -/
structure HRoot where
  children : List HNode

/-- The plugin pass on one document tree. -/
def rehypeFootnoteClass (tree : HRoot) : HRoot :=
  ⟨annotateList false false tree.children⟩

/-- Properties of a node. -/
def propsOf : HNode → Option Props
  | .element _ p _ => p
  | .text _ => none

/-! ### Concrete inputs used by the claims -/

/-- The document of the round-trip claim. -/
def c1doc : String := "---\ntags: [\"A B\", \"c_d\", \"e--f\", \"-g-\"]\n---\nBody text.\n"

/-- A configuration whose consolidation map sends a structurally valid tag to
the empty string. -/
def cfgEmptyVal : CanonicalTags := ⟨[], [("goodtag", "")]⟩

/-- A configuration consolidating "ml" into "ai". -/
def cfgMl : CanonicalTags := ⟨["ai"], [("ml", "ai")]⟩

/-- The corpus of the usage-analysis claim: tag x in p1 and p2, tag y in p3. -/
def corpus8 : List (String × String) :=
  [("p1.mdx", "---\ntags: [\"x\"]\n---\n"),
   ("p2.mdx", "---\ntags: [\"x\"]\n---\n"),
   ("p3.mdx", "---\ntags: [\"y\"]\n---\n")]

/-- A footnotes section with an ol whose li already carries the class token
as a single string. -/
def strTree : HRoot :=
  ⟨[.element "section" (some ⟨some (.many ["footnotes"]), []⟩)
      [.element "ol" none
        [.element "li" (some ⟨some (.one "footnote-item"), []⟩) []]]]⟩

/-- A footnotes section with an ol whose li already carries the class token
twice. -/
def dupTree : HRoot :=
  ⟨[.element "section" (some ⟨some (.many ["footnotes"]), []⟩)
      [.element "ol" none
        [.element "li" (some ⟨some (.many ["footnote-item", "footnote-item"]), []⟩) []]]]⟩

/-- A footnotes section whose list is a ul, so no li has an ol ancestor. -/
def ulTree : HRoot :=
  ⟨[.element "section" (some ⟨some (.many ["footnotes"]), []⟩)
      [.element "ul" none
        [.element "li" none []]]]⟩

/-- A section without any footnotes class, with an ol and an li inside. -/
def secTree : HRoot :=
  ⟨[.element "section" (some ⟨some (.many ["content"]), []⟩)
      [.element "ol" none
        [.element "li" none []]]]⟩

/-- Properties of the grandchild-level element in a three-level tree: the li
under section and list in the concrete trees above. -/
def liProps3 : HRoot → Option Props
  | ⟨[.element _ _ [.element _ _ [.element _ p _]]]⟩ => p
  | _ => none

/-! ### Helper lemmas about the annotator -/

theorem classListOfProps_getD (p : Option Props) :
    classListOfProps p = normalizeClasses (p.getD ⟨none, []⟩).className := by
  cases p <;> rfl

theorem otherOfProps_getD (p : Option Props) :
    otherOfProps p = (p.getD ⟨none, []⟩).other := by
  cases p <;> rfl

/-- When the token is already present the li update keeps the properties
object exactly as it was (up to the creation of an empty one). -/
theorem annotateProps_of_contains (p : Option Props)
    (h : (classListOfProps p).contains "footnote-item" = true) :
    annotateProps p = some (p.getD ⟨none, []⟩) := by
  simp only [annotateProps, ← classListOfProps_getD, h, if_true]

/-- When the token is absent the li update sets the class attribute to the
normalized list with the token appended, keeping all other attributes. -/
theorem annotateProps_of_not_contains (p : Option Props)
    (h : (classListOfProps p).contains "footnote-item" = false) :
    annotateProps p =
      some { className := some (.many (classListOfProps p ++ ["footnote-item"])),
             other := otherOfProps p } := by
  simp only [annotateProps, ← classListOfProps_getD, h, Bool.false_eq_true, if_false,
    ← otherOfProps_getD]

/-- After the li update the token is always present. -/
theorem annotateProps_contains_after (p : Option Props) :
    (classListOfProps (annotateProps p)).contains "footnote-item" = true := by
  by_cases h : (classListOfProps p).contains "footnote-item" = true
  · rw [annotateProps_of_contains p h]
    rw [show classListOfProps (some (p.getD ⟨none, []⟩)) = classListOfProps p from by
      cases p <;> rfl]
    exact h
  · have h3 : (classListOfProps p).contains "footnote-item" = false := by
      cases hcc : (classListOfProps p).contains "footnote-item" with
      | false => rfl
      | true => exact absurd hcc h
    rw [annotateProps_of_not_contains p h3]
    simp [classListOfProps, normalizeClasses]

/-- The li update always yields a properties object. -/
theorem annotateProps_eq_some (p : Option Props) : ∃ pr, annotateProps p = some pr := by
  by_cases h : (classListOfProps p).contains "footnote-item" = true
  · exact ⟨_, annotateProps_of_contains p h⟩
  · exact ⟨_, annotateProps_of_not_contains p (by
      cases hcc : (classListOfProps p).contains "footnote-item" with
      | false => rfl
      | true => exact absurd hcc h)⟩

/-- The li update is idempotent. -/
theorem annotateProps_idem (p : Option Props) :
    annotateProps (annotateProps p) = annotateProps p := by
  obtain ⟨pr, hp⟩ := annotateProps_eq_some p
  rw [annotateProps_of_contains _ (annotateProps_contains_after p), hp]
  rfl

mutual

theorem annotateNode_idem (foot ol : Bool) (n : HNode) :
    annotateNode foot ol (annotateNode foot ol n) = annotateNode foot ol n := by
  cases n with
  | text s => rfl
  | element tag props children =>
    have hL := annotateList_idem (foot || (tag == "section" && hasFootnotesClass props))
      (ol || tag == "ol") children
    by_cases hc : (tag == "li" && foot && ol) = true
    · obtain ⟨⟨ht, hf⟩, ho⟩ : ((tag == "li") = true ∧ foot = true) ∧ ol = true := by
        simpa [Bool.and_eq_true] using hc
      have htag : tag = "li" := by simpa using ht
      subst htag hf ho
      simp [annotateNode, annotateProps_idem, annotateList_idem true true children]
    · have hcf : (tag == "li" && foot && ol) = false := by
        cases hcc : (tag == "li" && foot && ol) with
        | false => rfl
        | true => exact absurd hcc hc
      simp [annotateNode, hcf, hL]

theorem annotateList_idem (foot ol : Bool) (ns : List HNode) :
    annotateList foot ol (annotateList foot ol ns) = annotateList foot ol ns := by
  cases ns with
  | nil => rfl
  | cons n rest =>
    simp [annotateList, annotateNode_idem foot ol n, annotateList_idem foot ol rest]

end

/-! ### Claim theorems -/

/-- C1, counterexample: on the document of the claim the first issue carries
suggestion "a b" — the uppercase rule fires before the space rule and
suggests the lowercased tag with its space kept — not "a-b" as claimed. -/
theorem c1_counterexample :
    ((validateDocTags none "post" ((parseFrontmatter c1doc).tags.getD [])).map
        TagIssue.suggestion) ≠
      [some "a-b", some "c-d", some "e-f", some "g"] := by decide

/-- C1 amended: the document yields exactly four issues, in tag order, with
suggestions "a b", "c-d", "e-f" and "g" (the first issue being the uppercase
rule, whose suggestion is the lowercased tag). -/
theorem c1_amended_roundtrip :
    validateDocTags none "post" ((parseFrontmatter c1doc).tags.getD []) =
      [⟨"post", "A B", "Contains uppercase letters", some "a b"⟩,
       ⟨"post", "c_d", "Contains underscores (should use hyphens)", some "c-d"⟩,
       ⟨"post", "e--f", "Contains multiple consecutive hyphens", some "e-f"⟩,
       ⟨"post", "-g-", "Contains leading or trailing hyphens", some "g"⟩] := by decide

/-- C2, counterexample: "goodtag" is a key of the consolidation map, but it is
mapped to the empty string, so the truthiness guard skips the consolidation
branch and the tag validates as fully valid. -/
theorem c2_counterexample :
    ("goodtag", "") ∈ cfgEmptyVal.consolidationMap ∧
      validateTag (some cfgEmptyVal) "goodtag" = ⟨true, none, none⟩ := by decide

/-- C2 amended: every consolidation-map key whose mapped replacement is
non-empty is reported as "Tag should be consolidated" with that replacement
as the suggestion, taking precedence over all structural rules. -/
theorem c2_amended_consolidation (cfg : CanonicalTags) (tag v : String)
    (h1 : consolidationLookup cfg.consolidationMap tag = some v) (h2 : v ≠ "") :
    validateTag (some cfg) tag =
      ⟨false, some "Tag should be consolidated", some v⟩ := by
  have hb : (v == "") = false := by simpa using h2
  have hhit : consolidationHit (some cfg) tag = some v := by
    simp [consolidationHit, h1, hb]
  unfold validateTag
  rw [hhit]

/-- C2 witness: the amended theorem at the concrete "ml" to "ai" entry. -/
theorem c2_amended_witness :
    validateTag (some cfgMl) "ml" = ⟨false, some "Tag should be consolidated", some "ai"⟩ :=
  c2_amended_consolidation cfgMl "ml" "ai" (by decide) (by decide)

/-- C3, counterexample: a qualifying li (footnotes section and ol ancestors
both present) whose class attribute is the single string "footnote-item" is
left untouched by the pass, so after the pass the class-list field is still a
single string, not a sequence of strings. -/
theorem c3_counterexample :
    rehypeFootnoteClass strTree = strTree ∧
      liProps3 strTree = some ⟨some (.one "footnote-item"), []⟩ := ⟨rfl, rfl⟩

/-- C3 amended: whenever the pass actually updates a qualifying li — that is,
whenever "footnote-item" is not already in its normalized class list — the
class attribute afterwards is an ordered sequence of strings: the normalized
list with "footnote-item" appended.  (When the token is already present the
field is left exactly as it was, possibly a single string.) -/
theorem c3_amended_sequence (foot ol : Bool) (tag : String) (p : Option Props)
    (cs : List HNode) (htag : tag = "li") (hf : foot = true) (ho : ol = true)
    (habs : (classListOfProps p).contains "footnote-item" = false) :
    propsOf (annotateNode foot ol (.element tag p cs)) =
      some { className := some (.many (classListOfProps p ++ ["footnote-item"])),
             other := otherOfProps p } := by
  subst htag hf ho
  simp [annotateNode, propsOf, annotateProps_of_not_contains p habs]

/-- C3 witness: the amended theorem at a qualifying li whose class attribute
is the single string "intro". -/
theorem c3_amended_witness :
    propsOf (annotateNode true true (.element "li" (some ⟨some (.one "intro"), []⟩) [])) =
      some ⟨some (.many ["intro", "footnote-item"]), []⟩ :=
  c3_amended_sequence true true "li" (some ⟨some (.one "intro"), []⟩) [] rfl rfl rfl (by decide)

/-- C4, counterexample: a qualifying li that already carries two
"footnote-item" entries keeps both of them after running the pass twice — the
pass never deduplicates, so "exactly one entry afterwards" fails on this
tree. -/
theorem c4_counterexample :
    (classListOfProps (liProps3 (rehypeFootnoteClass (rehypeFootnoteClass dupTree)))).count
      "footnote-item" = 2 := by decide

/-- C4 amended: the pass is idempotent — running it twice yields the tree of
one run — and a qualifying li whose class list held at most one
"footnote-item" entry before the update holds exactly one afterwards (a
pre-existing duplicate, however, is kept as is). -/
theorem c4_amended_idempotent :
    (∀ tree : HRoot, rehypeFootnoteClass (rehypeFootnoteClass tree) = rehypeFootnoteClass tree) ∧
      ∀ p : Option Props, (classListOfProps p).count "footnote-item" ≤ 1 →
        (classListOfProps (annotateProps p)).count "footnote-item" = 1 := by
  constructor
  · intro tree
    cases tree with
    | mk children =>
      simp [rehypeFootnoteClass, annotateList_idem false false children]
  · intro p hp
    by_cases hc : (classListOfProps p).contains "footnote-item" = true
    · rw [annotateProps_of_contains p hc,
        show classListOfProps (some (p.getD ⟨none, []⟩)) = classListOfProps p from by
          cases p <;> rfl]
      have h1 : 1 ≤ (classListOfProps p).count "footnote-item" := by
        simp at hc
        exact List.one_le_count_iff.mpr hc
      omega
    · have h3 : (classListOfProps p).contains "footnote-item" = false := by
        cases hcc : (classListOfProps p).contains "footnote-item" with
        | false => rfl
        | true => exact absurd hcc hc
      rw [annotateProps_of_not_contains p h3]
      have h0 : (classListOfProps p).count "footnote-item" = 0 :=
        List.count_eq_zero.mpr (by simpa using h3)
      rw [show classListOfProps
          (some { className := some (.many (classListOfProps p ++ ["footnote-item"])),
                  other := otherOfProps p }) = classListOfProps p ++ ["footnote-item"] from rfl]
      simp [h0]

/-- C4 witness: the count clause of the amended theorem at an li with no
properties at all. -/
theorem c4_amended_witness :
    (classListOfProps (annotateProps none)).count "footnote-item" = 1 :=
  c4_amended_idempotent.2 none (by decide)

/-- C5: the pass annotates an li only when both structural conditions hold —
any element whose tag, footnotes-section flag and ol flag are not all
satisfied keeps its properties unchanged — and, concretely, the tree with an
li in a ul inside a footnotes section and the tree with an li in an ol inside
a section without a footnotes class are both returned unchanged. -/
theorem c5_structural_conditions :
    (∀ (foot ol : Bool) (tag : String) (p : Option Props) (cs : List HNode),
        ¬(tag = "li" ∧ foot = true ∧ ol = true) →
        propsOf (annotateNode foot ol (.element tag p cs)) = p) ∧
      rehypeFootnoteClass ulTree = ulTree ∧ rehypeFootnoteClass secTree = secTree := by
  refine ⟨?_, rfl, rfl⟩
  intro foot ol tag p cs h
  have hcf : (tag == "li" && foot && ol) = false := by
    cases hcc : (tag == "li" && foot && ol) with
    | false => rfl
    | true =>
      obtain ⟨⟨ht, hf⟩, ho⟩ : ((tag == "li") = true ∧ foot = true) ∧ ol = true := by
        simpa [Bool.and_eq_true] using hcc
      exact absurd ⟨by simpa using ht, hf, ho⟩ h
  simp [annotateNode, propsOf, hcf]

/-- C5 witness: a paragraph element with no flags set keeps its (absent)
properties. -/
theorem c5_witness :
    propsOf (annotateNode false false (.element "p" none [])) = none :=
  c5_structural_conditions.1 false false "p" none [] (by decide)

/-- C6, counterexample: on text with no frontmatter delimiters the extractor
returns the tags field absent (the TS object has no tags property), not the
empty tag list the claim states. -/
theorem c6_counterexample :
    (parseFrontmatter "No frontmatter here.").tags ≠ some [] ∧
      parseFrontmatter "No frontmatter here." = ⟨none, "unknown"⟩ := by decide

/-- C6 amended: for every document text containing no three consecutive
hyphens, extraction returns slug "unknown" with the tags field absent — a
state every caller treats as zero tags — and no error (the extractor is a
total function). -/
theorem c6_amended_noDelims (content : String)
    (h : hasSubstr ('-' :: '-' :: '-' :: []) content.data = false) :
    parseFrontmatter content = ⟨none, "unknown"⟩ := by
  have hfm : fmMatch content.data = none := by
    unfold fmMatch
    split
    · rename_i rest0 heq
      rw [heq] at h
      simp [hasSubstr, splitOnSub, headMatches] at h
    · rfl
  unfold parseFrontmatter
  rw [hfm]

/-- C6 witness: the amended theorem at a concrete delimiter-free text. -/
theorem c6_amended_witness : parseFrontmatter "plain text" = ⟨none, "unknown"⟩ :=
  c6_amended_noDelims "plain text" (by decide)

/-- C7: a present but unparseable configuration loads to `none` — the very
state produced by an absent file — without anything escaping the loader (it
is a total function), and validation with the loaded value degrades to the
rule-only checks. -/
theorem c7_malformed_config (pj : String → Except String CanonicalTags)
    (content msg : String) (hbad : pj content = .error msg) :
    loadCanonicalTags (.ok content) pj = none ∧
      (∀ err, loadCanonicalTags (.error err) pj = loadCanonicalTags (.ok content) pj) ∧
      ∀ tag, validateTag (loadCanonicalTags (.ok content) pj) tag = validateTag none tag := by
  have h1 : loadCanonicalTags (.ok content) pj = none := by
    unfold loadCanonicalTags
    simp [Except.bind, hbad]
  refine ⟨h1, fun err => ?_, fun tag => by rw [h1]⟩
  rw [h1]
  unfold loadCanonicalTags
  simp [Except.bind]

/-- C7 witness: the theorem at a concrete malformed body and failing parser. -/
theorem c7_witness :
    loadCanonicalTags (.ok "not valid JSON") (fun _ => .error "parse failure") = none :=
  (c7_malformed_config (fun _ => .error "parse failure") "not valid JSON" "parse failure"
    rfl).1

/-- C8: on the corpus with tag x in p1 and p2 and tag y in p3 only, the
analyzer reports x with count 2 and posts p1, p2, then y with count 1, one
single-use tag, one multi-use tag, and a reuse rate of one half. -/
theorem c8_usage_report :
    (analyzeTags corpus8).tagUsage = [⟨"x", 2, ["p1", "p2"]⟩, ⟨"y", 1, ["p3"]⟩] ∧
      (analyzeTags corpus8).singleUseTags = 1 ∧
      (analyzeTags corpus8).multiUseTags = 1 ∧
      reuseRate (analyzeTags corpus8) = 1 / 2 := by
  refine ⟨by decide, by decide, by decide, ?_⟩
  have hm : (analyzeTags corpus8).multiUseTags = 1 := by decide
  have hu : (analyzeTags corpus8).uniqueTags = 2 := by decide
  rw [reuseRate, hm, hu]
  norm_num

/-- C9: the frame property of the pass — text (and other non-element) nodes
are returned unchanged; an element not satisfying all of li-tag, footnotes
flag and ol flag keeps its tag and properties exactly, with only its children
recursed into; a qualifying li keeps its tag and children flags and only its
properties go through the li update; and the li update keeps every attribute
other than the class attribute, either leaving the class value untouched or
appending the token to its normalization (creating the properties object
when absent). -/
theorem c9_frame_effect :
    (∀ (foot ol : Bool) (s : String), annotateNode foot ol (.text s) = .text s) ∧
      (∀ (foot ol : Bool) (tag : String) (p : Option Props) (cs : List HNode),
          (tag == "li" && foot && ol) = false →
          annotateNode foot ol (.element tag p cs) =
            .element tag p
              (annotateList (foot || (tag == "section" && hasFootnotesClass p))
                (ol || tag == "ol") cs)) ∧
      (∀ (foot ol : Bool) (p : Option Props) (cs : List HNode),
          annotateNode foot ol (.element "li" p cs) =
            .element "li" (if foot && ol then annotateProps p else p)
              (annotateList foot ol cs)) ∧
      ∀ (p : Option Props) (pr : Props), annotateProps p = some pr →
        pr.other = otherOfProps p ∧
          (pr.className = (p.getD ⟨none, []⟩).className ∨
            pr.className = some (.many (classListOfProps p ++ ["footnote-item"]))) := by
  refine ⟨fun foot ol s => rfl, ?_, ?_, ?_⟩
  · intro foot ol tag p cs hcf
    simp [annotateNode, hcf]
  · intro foot ol p cs
    cases foot <;> cases ol <;> simp [annotateNode]
  · intro p pr hpr
    by_cases hc : (classListOfProps p).contains "footnote-item" = true
    · rw [annotateProps_of_contains p hc] at hpr
      injection hpr with hpr
      subst hpr
      exact ⟨(otherOfProps_getD p).symm, Or.inl rfl⟩
    · have h3 : (classListOfProps p).contains "footnote-item" = false := by
        cases hcc : (classListOfProps p).contains "footnote-item" with
        | false => rfl
        | true => exact absurd hcc hc
      rw [annotateProps_of_not_contains p h3] at hpr
      injection hpr with hpr
      subst hpr
      exact ⟨rfl, Or.inr rfl⟩

/-- C9 witness: a non-li element with no flags set is unchanged. -/
theorem c9_witness :
    annotateNode false false (.element "div" none []) = .element "div" none [] :=
  c9_frame_effect.2.1 false false "div" none [] (by decide)

/-- C10: an invalid validation result carries no suggestion exactly when its
issue is "Empty tag" — every other issue always comes with a suggestion. -/
theorem c10_suggestion_unless_empty (cfg : Option CanonicalTags) (tag : String)
    (h : (validateTag cfg tag).valid = false) :
    (validateTag cfg tag).suggestion = none ↔
      (validateTag cfg tag).issue = some "Empty tag" := by
  unfold validateTag at h ⊢
  cases hcons : consolidationHit cfg tag with
  | some v => simp [hcons]
  | none =>
    simp only [hcons] at h ⊢
    by_cases h1 : tag.data ≠ jsToLower tag.data
    · rw [if_pos h1]; simp
    rw [if_neg h1] at h ⊢
    by_cases h2 : tag.data.contains ' ' = true
    · rw [if_pos h2]; simp
    rw [if_neg h2] at h ⊢
    by_cases h3 : tag.data.contains '_' = true
    · rw [if_pos h3]; simp
    rw [if_neg h3] at h ⊢
    by_cases h4 : hasDoubleHyphen tag.data = true
    · rw [if_pos h4]; simp
    rw [if_neg h4] at h ⊢
    by_cases h5 : (tag.data.head? == some '-' || tag.data.getLast? == some '-') = true
    · rw [if_pos h5]; simp
    rw [if_neg h5] at h ⊢
    by_cases h6 : tag.data.all isJsWs = true
    · rw [if_pos h6]; simp
    rw [if_neg h6] at h ⊢
    exact absurd h (by simp)

/-- C10 witness: the empty tag is invalid, and the theorem applies to it. -/
theorem c10_witness :
    (validateTag none "").suggestion = none ↔ (validateTag none "").issue = some "Empty tag" :=
  c10_suggestion_unless_empty none "" (by decide)

end Sjg
